import Mathlib

/-!
# Verification of the GHEP event-record core (`GHepRecord.cxx`)

A shallow embedding of the event-record data structure of
`src/GHEP/GHepRecord.cxx`: an ordered sequence of particle entries whose
mother/daughter relationships are index ranges into the same sequence, the
incremental daughter-list update run after each append
(`UpdateDaughterLists`), the full compaction pass
(`CompactifyDaughterLists`, `HasCompactDaughterList`, `SwapParticles`,
`FirstNonInitStateEntry`, `FinalizeDaughterLists`), the record facade
(flags, summary attachment, `Copy`), and the lookup interface
(`GetParticle`, `FindParticle`, `ParticlePosition`, `GetInteraction`).

Records are lists of entries; machine `int` fields become `Int`; functions
that return `NULL` on failure return `Option`; the floating-point momentum
and position components are only ever copied and compared by the verified
operations (never computed with), so they are represented by `Int` values.
-/

/-- Modelled from the spec: the particle entry (`GHepParticle`, whose own
source is not part of this snapshot).  It holds a type code, a status/role
tag, mother and daughter index fields (`-1` meaning none), a 4-momentum and
a 4-position; copy/swap act on the whole content. -/
structure GHepParticle where
  pdg : Int
  status : Int
  firstMother : Int
  lastMother : Int
  firstDaughter : Int
  lastDaughter : Int
  px : Int
  py : Int
  pz : Int
  energy : Int
  vx : Int
  vy : Int
  vz : Int
  vt : Int
deriving Repr, DecidableEq, Inhabited

/-- Modelled from the spec: the *initial-state* role tag
(`kIStInitialState` of the missing `GHepStatus.h`); only its distinctness
from the other tags matters to the algorithms. -/
def kIStInitialState : Int := 0

/-- Modelled from the spec: the *stable-final-state* role tag
(`kIStStableFinalState` of the missing `GHepStatus.h`). -/
def kIStStableFinalState : Int := 1

/-- Modelled from the spec: the *target-nucleon* role tag
(`kIstNucleonTarget` of the missing `GHepStatus.h`). -/
def kIstNucleonTarget : Int := 11

/-- Modelled from the spec: the opaque interaction-summary payload; the
record core never inspects it, only attaches, clones and hands it back. -/
structure Interaction where
  data : Int
deriving Repr, DecidableEq, Inhabited

/-- The entry stored at slot `i` of the sequence (total; slots of an event
record are always populated, so out-of-range reads never occur in the
operations below without an explicit range guard). -/
def pAt (l : List GHepParticle) (i : Nat) : GHepParticle :=
  l.getD i default

/-- Modelled from the spec: `GHepParticle::HasDaughters` — the entry has a
non-empty daughter range. -/
def hasDaughters (p : GHepParticle) : Bool :=
  p.firstDaughter ≠ -1

/-- `GHepRecord::GetParticle`: the entry at an `int` position, or `NULL`
(here `none`) when the position is out of range. -/
def getParticle (l : List GHepParticle) (position : Int) : Option GHepParticle :=
  if 0 ≤ position ∧ position < (l.length : Int) then some (pAt l position.toNat)
  else none

/-- `GHepRecord::FindParticle`: first entry from `start` on with the given
pdg code and status, or `NULL` (`none`). -/
def findParticle (l : List GHepParticle) (pdg status : Int) (start : Nat) :
    Option GHepParticle :=
  match (List.range' start (l.length - start)).find?
      (fun i => (pAt l i).status == status && (pAt l i).pdg == pdg) with
  | some i => some (pAt l i)
  | none => none

/-- `GHepRecord::ParticlePosition` (pdg/status overload): position of the
first match from `start` on, or `-1`. -/
def particlePosition (l : List GHepParticle) (pdg status : Int) (start : Nat) : Int :=
  match (List.range' start (l.length - start)).find?
      (fun i => (pAt l i).status == status && (pAt l i).pdg == pdg) with
  | some i => Int.ofNat i
  | none => -1

/-- `GHepRecord::ParticlePosition` (particle overload): position of the
first entry from `start` on whose content compares equal, or `-1`.
The content comparison `GHepParticle::Compare` is modelled from the spec as
whole-content equality. -/
def particlePositionOfParticle (l : List GHepParticle) (q : GHepParticle)
    (start : Nat) : Int :=
  match (List.range' start (l.length - start)).find?
      (fun i => pAt l i == q) with
  | some i => Int.ofNat i
  | none => -1

/-- Replace the daughter range stored at slot `i`. -/
def setDaughtersAt (l : List GHepParticle) (i : Nat) (d1 d2 : Int) :
    List GHepParticle :=
  l.set i { pAt l i with firstDaughter := d1, lastDaughter := d2 }

/-- `SetFirstDaughter` on the entry at slot `i`. -/
def setFirstDaughterAt (l : List GHepParticle) (i : Nat) (d1 : Int) :
    List GHepParticle :=
  l.set i { pAt l i with firstDaughter := d1 }

/-- `SetLastDaughter` on the entry at slot `i`. -/
def setLastDaughterAt (l : List GHepParticle) (i : Nat) (d2 : Int) :
    List GHepParticle :=
  l.set i { pAt l i with lastDaughter := d2 }

/-- `SetFirstMother(m)` on the entry at `int` position `k`; positions
outside the sequence leave it unchanged (the record's own operations only
ever pass in-range daughter indices here). -/
def setFirstMotherAt (l : List GHepParticle) (k : Int) (m : Int) :
    List GHepParticle :=
  if 0 ≤ k ∧ k < (l.length : Int) then
    l.set k.toNat { pAt l k.toNat with firstMother := m }
  else l

/-- The inclusive `int` range `[a, b]` as a list (empty when `a > b`),
mirroring `for (int k = a; k <= b; k++)`. -/
def intRange (a b : Int) : List Int :=
  (List.range (b + 1 - a).toNat).map (fun t => a + t)

/-- Re-point the `firstMother` of every slot in the inclusive range
`[a, b]` to `m` (the `SetFirstMother` loop inside `SwapParticles`). -/
def setMothersRange (l : List GHepParticle) (a b m : Int) : List GHepParticle :=
  (intRange a b).foldl (fun acc k => setFirstMotherAt acc k m) l

/-- `GHepRecord::SwapParticles`: full content swap of slots `i` and `j`,
followed by the source's re-pointing step — the daughters recorded by the
new occupant of slot `i` get `firstMother := j`, then the daughters
recorded by the new occupant of slot `j` get `firstMother := i`. -/
def swapParticles (l : List GHepParticle) (i j : Nat) : List GHepParticle :=
  if i = j then l
  else
    let pi0 := pAt l i
    let pj0 := pAt l j
    let l1 := (l.set i pj0).set j pi0
    let l2 :=
      if hasDaughters (pAt l1 i) then
        setMothersRange l1 (pAt l1 i).firstDaughter (pAt l1 i).lastDaughter
          (Int.ofNat j)
      else l1
    if hasDaughters (pAt l2 j) then
      setMothersRange l2 (pAt l2 j).firstDaughter (pAt l2 j).lastDaughter
        (Int.ofNat i)
    else l2

/-- `GHepRecord::FirstNonInitStateEntry`: position of the first entry whose
status is neither initial-state nor target-nucleon (`n` when none is). -/
def firstNonInitStateEntry : List GHepParticle → Nat
  | [] => 0
  | p :: t =>
      if p.status ≠ kIStInitialState ∧ p.status ≠ kIstNucleonTarget then 0
      else firstNonInitStateEntry t + 1

/-- The positions whose entry's `firstMother` equals `pos` (the
daughter-collection scan of `HasCompactDaughterList`), in increasing
order. -/
def collectDaughters (l : List GHepParticle) (pos : Int) : List Int :=
  ((List.range l.length).filter (fun i => (pAt l i).firstMother == pos)).map
    Int.ofNat

/-- Ascending insertion of `x` into a sorted list (the embedding of
`std::sort`'s effect is `sortInts` below). -/
def insertSorted (x : Int) : List Int → List Int
  | [] => [x]
  | y :: t => if x ≤ y then x :: y :: t else y :: insertSorted x t

/-- Ascending sort of a list of positions (the `sort` call of
`HasCompactDaughterList`). -/
def sortInts : List Int → List Int
  | [] => []
  | x :: t => insertSorted x (sortInts t)

/-- The accumulator loop of `HasCompactDaughterList`: starting from `prev`,
conjoin `|prev - curr| <= 1` over the list, threading `prev`. -/
def compactScan (prev : Int) : List Int → Bool → Bool
  | [], acc => acc
  | c :: t, acc => compactScan c t (acc && ((prev - c).natAbs ≤ 1))

/-- `GHepRecord::HasCompactDaughterList`: collect all positions whose
`firstMother` equals `pos`; fewer than two are compact by definition, else
sort them and require consecutive positions to differ by at most 1 (the
source's loop also compares the first element with itself). -/
def hasCompactDaughterList (l : List GHepParticle) (pos : Int) : Bool :=
  let daughters := collectDaughters l pos
  if daughters.length > 1 then
    match sortInts daughters with
    | [] => true
    | h :: t => compactScan h (h :: t) true
  else true

/-- The inner scan of `CompactifyDaughterLists` for mother position `i`:
walk the listed candidate positions; at each `k` whose current occupant has
`firstMother == i`, swap slots `start` and `k` and advance `start`,
tallying `ndau`.  State is `(sequence, start, ndau)`. -/
def compactScanSwap (i : Int) :
    List Nat → List GHepParticle × Nat × Nat → List GHepParticle × Nat × Nat
  | [], st => st
  | k :: ks, (l, start, ndau) =>
      if (pAt l k).firstMother == i then
        compactScanSwap i ks (swapParticles l start k, start + 1, ndau + 1)
      else
        compactScanSwap i ks (l, start, ndau)

/-- One iteration of the outer `CompactifyDaughterLists` loop, for mother
position `i`: skip if the daughter list is already compact, else run the
inner scan over `k = start+1 .. n-1` and set slot `i`'s daughter range to
`[dau1, dau1 + ndau]` (with `dau1` the cursor at entry) when `ndau > 0`,
else to `(-1, -1)`. -/
def compactifyItem (st : List GHepParticle × Nat) (i : Nat) :
    List GHepParticle × Nat :=
  let l := st.1
  let start := st.2
  if hasCompactDaughterList l (Int.ofNat i) then (l, start)
  else
    let n := l.length
    let dau1 := start
    let res := compactScanSwap (Int.ofNat i) (List.range' (start + 1) (n - (start + 1)))
      (l, start, 0)
    if res.2.2 > 0 then
      (setDaughtersAt res.1 i (Int.ofNat dau1) (Int.ofNat (dau1 + res.2.2)), res.2.1)
    else
      (setDaughtersAt res.1 i (-1) (-1), res.2.1)

/-- Phase 1 of `CompactifyDaughterLists`: the positional-repair loop over
all positions, with the cursor threaded through, before
`FinalizeDaughterLists` runs. -/
def compactifyPhase1 (l : List GHepParticle) : List GHepParticle :=
  ((List.range l.length).foldl compactifyItem (l, firstNonInitStateEntry l)).1

/-- The min/max accumulation loop of `FinalizeDaughterLists` over candidate
daughter positions for mother `i1`, with accumulator `(dau1, dau2)`
starting at `(-1, -1)`. -/
def finScan (l : List GHepParticle) (i1 : Int) : List Nat → Int × Int → Int × Int
  | [], d => d
  | i2 :: t, d =>
      if (pAt l i2).firstMother == i1 then
        finScan l i1 t
          ((if d.1 < 0 then Int.ofNat i2 else min d.1 (Int.ofNat i2)),
           (if d.2 < 0 then Int.ofNat i2 else max d.2 (Int.ofNat i2)))
      else finScan l i1 t d

/-- One iteration of the outer `FinalizeDaughterLists` loop: recompute slot
`i1`'s daughter range from the `firstMother` fields of the current
sequence. -/
def finalizeItem (l : List GHepParticle) (i1 : Nat) : List GHepParticle :=
  let d := finScan l (Int.ofNat i1) (List.range l.length) (-1, -1)
  setDaughtersAt l i1 d.1 d.2

/-- `GHepRecord::FinalizeDaughterLists`: recompute every entry's daughter
range from the `firstMother` fields. -/
def finalizeDaughterLists (l : List GHepParticle) : List GHepParticle :=
  (List.range l.length).foldl finalizeItem l

/-- `GHepRecord::CompactifyDaughterLists`: the phase-1 repair loop followed
by the phase-2 derivation pass. -/
def compactifyDaughterLists (l : List GHepParticle) : List GHepParticle :=
  finalizeDaughterLists (compactifyPhase1 l)

/-- `GHepRecord::UpdateDaughterLists`, run on the sequence right after an
append; the returned `Bool` reports whether `CompactifyDaughterLists` was
invoked (the compaction-invocation counter of the spec's tests).  The
source asserts the record is non-empty; the empty case (unreachable from
`AddParticle`) leaves the sequence unchanged. -/
def updateDaughterLists (l : List GHepParticle) : List GHepParticle × Bool :=
  if l.length = 0 then (l, false)
  else
    let pos := l.length - 1
    let p := pAt l pos
    let momPos := p.firstMother
    if momPos = -1 then (l, false)
    else
      match getParticle l momPos with
      | none => (l, false)
      | some mom =>
          let dau1 := mom.firstDaughter
          let dau2 := mom.lastDaughter
          if dau1 = -1 then
            (setDaughtersAt l momPos.toNat (Int.ofNat pos) (Int.ofNat pos), false)
          else if (Int.ofNat pos) = dau1 - 1 then
            (setFirstDaughterAt l momPos.toNat (Int.ofNat pos), false)
          else if (Int.ofNat pos) = dau2 + 1 then
            (setLastDaughterAt l momPos.toNat (Int.ofNat pos), false)
          else
            (compactifyDaughterLists l, true)

/-- `GHepRecord::AddParticle`: append the new entry at the next slot, then
run the incremental daughter-list update.  All three overloads of the
source route through this same path. -/
def addParticle (l : List GHepParticle) (p : GHepParticle) :
    List GHepParticle × Bool :=
  updateDaughterLists (l ++ [p])

/-- The event record: the particle sequence, the optionally attached
interaction summary (carried with the address of its heap object, so that
clone-versus-alias facts are expressible), and the three outcome flags. -/
structure GHepRecord where
  particles : List GHepParticle
  fInteraction : Option (Nat × Interaction)
  fIsPauliBlocked : Bool
  fIsBelowThrNRF : Bool
  fGenericErrFlag : Bool
deriving Repr, DecidableEq, Inhabited

/-- `GHepRecord::GetInteraction`: the attached summary, or `NULL` (`none`)
when absent (the source only logs in that case and returns the null
pointer). -/
def getInteraction (r : GHepRecord) : Option (Nat × Interaction) :=
  r.fInteraction

/-- `GHepRecord::IsUnphysical`: the OR of the three outcome flags. -/
def isUnphysical (r : GHepRecord) : Bool :=
  r.fIsPauliBlocked || r.fIsBelowThrNRF || r.fGenericErrFlag

/-- `GHepRecord::Copy`: reset the destination, deep-copy every entry, clone
the summary with `new Interaction(*record.fInteraction)` — which
dereferences the source's summary pointer unconditionally, so a source
without a summary has no defined result (`none`) — and copy the three
flags.  `fresh` is the address of the newly allocated clone. -/
def copyGHepRecord (dst src : GHepRecord) (fresh : Nat) : Option GHepRecord :=
  match src.fInteraction with
  | none => none
  | some s =>
      some { particles := src.particles
             fInteraction := some (fresh, s.2)
             fIsPauliBlocked := src.fIsPauliBlocked
             fIsBelowThrNRF := src.fIsBelowThrNRF
             fGenericErrFlag := src.fGenericErrFlag }

/-- A particle entry with the given type code, first-mother index and
status tag; every other field is zeroed (`-1` for the unused genealogy
indices), as the genealogy scenarios only exercise type, status and the
mother/daughter fields. -/
def mkP (pdg mom st : Int) : GHepParticle :=
  { pdg := pdg, status := st, firstMother := mom, lastMother := -1,
    firstDaughter := -1, lastDaughter := -1,
    px := 0, py := 0, pz := 0, energy := 0, vx := 0, vy := 0, vz := 0, vt := 0 }

/-- Scenario A, first append: an initial-state entry with no mother. -/
def scenarioA0 : List GHepParticle × Bool :=
  addParticle [] (mkP 10 (-1) kIStInitialState)

/-- Scenario A, second append: a daughter of entry 0. -/
def scenarioA1 : List GHepParticle × Bool :=
  addParticle scenarioA0.1 (mkP 11 0 kIStStableFinalState)

/-- Scenario A, third append: another daughter of entry 0. -/
def scenarioA2 : List GHepParticle × Bool :=
  addParticle scenarioA1.1 (mkP 12 0 kIStStableFinalState)

/-- Scenario B, the four appends with mother assignments `[-1, 0, -1, 0]`:
entry 2 is unrelated and sits between the two daughters of entry 0. -/
def scenarioB0 : List GHepParticle × Bool :=
  addParticle [] (mkP 10 (-1) kIStInitialState)

/-- Scenario B, second append: a daughter of entry 0. -/
def scenarioB1 : List GHepParticle × Bool :=
  addParticle scenarioB0.1 (mkP 11 0 kIStStableFinalState)

/-- Scenario B, third append: an unrelated motherless entry. -/
def scenarioB2 : List GHepParticle × Bool :=
  addParticle scenarioB1.1 (mkP 12 (-1) kIStStableFinalState)

/-- Scenario B, fourth append: a second daughter of entry 0, no longer
adjacent to the first one. -/
def scenarioB3 : List GHepParticle × Bool :=
  addParticle scenarioB2.1 (mkP 13 0 kIStStableFinalState)

/-- A three-entry record reachable by appending particles with mother
assignments `[1, -1, 1]` (each append stays on the cheap path): the two
daughters of entry 1 sit at the non-adjacent positions 0 and 2. -/
def idemDemo : List GHepParticle :=
  [mkP 20 1 kIStStableFinalState,
   { mkP 21 (-1) kIStStableFinalState with firstDaughter := 2, lastDaughter := 2 },
   mkP 22 1 kIStStableFinalState]

/-- A three-entry record for the swap contract: entry 0 (type 1) has the
single daughter at slot 2, entry 1 (type 2) is unrelated. -/
def swapDemo : List GHepParticle :=
  [{ mkP 1 (-1) kIStStableFinalState with firstDaughter := 2, lastDaughter := 2 },
   mkP 2 (-1) kIStStableFinalState,
   mkP 3 0 kIStStableFinalState]

/-- The scenario-B record as it stands entering full compaction: the fourth
append has happened, entry 0 still carries the pre-append daughter range
`[1, 1]`. -/
def phase1Demo : List GHepParticle :=
  [{ mkP 10 (-1) kIStInitialState with firstDaughter := 1, lastDaughter := 1 },
   mkP 11 0 kIStStableFinalState,
   mkP 12 (-1) kIStStableFinalState,
   mkP 13 0 kIStStableFinalState]

/-- A one-entry record with no summary attached, used to exercise the
not-found paths of the lookup interface. -/
def demoRecord : GHepRecord :=
  { particles := [mkP 5 (-1) kIStStableFinalState]
    fInteraction := none
    fIsPauliBlocked := false
    fIsBelowThrNRF := false
    fGenericErrFlag := false }

/-- A source record with an attached summary (address 0, payload 42) and
all three flags exercised, used by the copy round-trip witness. -/
def srcDemo : GHepRecord :=
  { particles := [mkP 7 (-1) kIStInitialState, mkP 8 0 kIStStableFinalState]
    fInteraction := some (0, { data := 42 })
    fIsPauliBlocked := true
    fIsBelowThrNRF := false
    fGenericErrFlag := true }

/-- Phase 1 of full compaction exactly as the claim words it: for a failing
position `i` the scan runs from the cursor itself to the end of the
sequence, and the daughter range afterwards is
`[cursor - count, cursor - 1]` when `count > 0`. -/
def specCompactifyItem (st : List GHepParticle × Nat) (i : Nat) :
    List GHepParticle × Nat :=
  let l := st.1
  let c := st.2
  if hasCompactDaughterList l (Int.ofNat i) then (l, c)
  else
    let res := compactScanSwap (Int.ofNat i) ((List.range l.length).drop c) (l, c, 0)
    if res.2.2 > 0 then
      (setDaughtersAt res.1 i (Int.ofNat (res.2.1 - res.2.2)) (Int.ofNat (res.2.1 - 1)),
       res.2.1)
    else
      (setDaughtersAt res.1 i (-1) (-1), res.2.1)

/-- The claim's phase-1 pass: `specCompactifyItem` folded over all
positions, the cursor starting at the first entry eligible to be a
daughter-slot target. -/
def specCompactifyPhase1 (l : List GHepParticle) : List GHepParticle :=
  ((List.range l.length).foldl specCompactifyItem (l, firstNonInitStateEntry l)).1

/-- Phase 1 as the counterexample forces the claim to be amended: the scan
runs from `cursor + 1` (the slot at the cursor itself is never examined),
and the daughter range afterwards is `[cursor - count, cursor]` when
`count > 0` — its last slot is the final cursor, one past the last daughter
placed. -/
def amendedCompactifyItem (st : List GHepParticle × Nat) (i : Nat) :
    List GHepParticle × Nat :=
  let l := st.1
  let c := st.2
  if hasCompactDaughterList l (Int.ofNat i) then (l, c)
  else
    let res := compactScanSwap (Int.ofNat i) ((List.range l.length).drop (c + 1)) (l, c, 0)
    if res.2.2 > 0 then
      (setDaughtersAt res.1 i (Int.ofNat (res.2.1 - res.2.2)) (Int.ofNat res.2.1),
       res.2.1)
    else
      (setDaughtersAt res.1 i (-1) (-1), res.2.1)

/-- The amended phase-1 pass, folded over all positions. -/
def amendedCompactifyPhase1 (l : List GHepParticle) : List GHepParticle :=
  ((List.range l.length).foldl amendedCompactifyItem (l, firstNonInitStateEntry l)).1

/-- The incremental post-append update exactly as the claim words it, for
the newly appended entry `p` at position `pos = |r|`: no-op without a
mother; `[pos, pos]` when the mother has no daughters; extend the range by
one on either side when adjacent; otherwise full compaction. -/
def specIncrementalUpdate (r : List GHepParticle) (p : GHepParticle) :
    List GHepParticle × Bool :=
  let l := r ++ [p]
  let pos : Int := Int.ofNat r.length
  if p.firstMother = -1 then (l, false)
  else
    let mom := pAt l p.firstMother.toNat
    if mom.firstDaughter = -1 then
      (setDaughtersAt l p.firstMother.toNat pos pos, false)
    else if pos = mom.firstDaughter - 1 then
      (setFirstDaughterAt l p.firstMother.toNat pos, false)
    else if pos = mom.lastDaughter + 1 then
      (setLastDaughterAt l p.firstMother.toNat pos, false)
    else
      (compactifyDaughterLists l, true)

/-- The derivation pass exactly as the claim words it: the daughter bounds
of position `i` are the minimum and maximum positions among all entries
whose `firstMother` equals `i`, or `(-1, -1)` when there are none. -/
def specDaughterBounds (l : List GHepParticle) (i : Nat) : Int × Int :=
  let ds := collectDaughters l (Int.ofNat i)
  match ds.min?, ds.max? with
  | some a, some b => (a, b)
  | _, _ => (-1, -1)

/-- The claim's whole derivation pass: every entry's daughter range is
recomputed from scratch out of the `firstMother` fields, ignoring whatever
ranges the entries carried before. -/
def specFinalize (l : List GHepParticle) : List GHepParticle :=
  (List.range l.length).map (fun i =>
    { pAt l i with firstDaughter := (specDaughterBounds l i).1,
                   lastDaughter := (specDaughterBounds l i).2 })

/-- Claim C1: the contiguous-daughter-range invariant is supposed to hold
after every `append_particle`, and scenario B is supposed to end with a
contiguous 2-slot daughter window for entry 0 and the unrelated entry
relocated outside it.  The code violates this: the four-entry append
sequence with mothers `[-1, 0, -1, 0]` does trigger full compaction, yet it
ends with entry 0's daughter range `[1, 3]` — a 3-slot window that still
contains the unrelated entry (type code 12, no mother) at slot 2 — and the
positions whose `firstMother` is 0 are the non-contiguous `{1, 3}`. -/
theorem scenarioB_daughter_invariant_fails :
    scenarioB3.2 = true ∧
    (pAt scenarioB3.1 0).firstDaughter = 1 ∧
    (pAt scenarioB3.1 0).lastDaughter = 3 ∧
    (pAt scenarioB3.1 2).pdg = 12 ∧
    (pAt scenarioB3.1 2).firstMother = -1 ∧
    collectDaughters scenarioB3.1 0 = [1, 3] := by decide

/-- Claim C2: the slot swap is supposed to re-point every entry whose
`firstMother` referenced a pre-swap occupant to the slot holding that
occupant afterwards.  The code re-points in the wrong direction (each moved
occupant's recorded daughters are assigned the occupant's *old* index,
which they already held), so after swapping slots 0 and 1 of `swapDemo` the
daughter at slot 2 still has `firstMother = 0` even though its actual
mother's content (type code 1) now sits at slot 1 and slot 0 holds the
unrelated content (type code 2). -/
theorem swapParticles_stale_mother_reference :
    (pAt swapDemo 2).firstMother = 0 ∧
    (pAt swapDemo 0).pdg = 1 ∧
    (pAt (swapParticles swapDemo 0 1) 1).pdg = 1 ∧
    (pAt (swapParticles swapDemo 0 1) 0).pdg = 2 ∧
    (pAt (swapParticles swapDemo 0 1) 2).firstMother = 0 := by decide

/-- Claim C4: full compaction is supposed to be idempotent.  On the
reachable record `idemDemo` (mothers `[1, -1, 1]`) the first run leaves the
daughters of entry 1 at the still non-contiguous positions `{0, 2}`, so the
second run swaps slots 0 and 2 again and produces a different slot layout:
slot 0 holds type code 22 after one run and type code 20 after two. -/
theorem compactify_twice_differs :
    compactifyDaughterLists (compactifyDaughterLists idemDemo) ≠
      compactifyDaughterLists idemDemo ∧
    (pAt (compactifyDaughterLists idemDemo) 0).pdg = 22 ∧
    (pAt (compactifyDaughterLists (compactifyDaughterLists idemDemo)) 0).pdg = 20 := by
  decide

/-- Claim C3 (counterexample): phase 1 as the claim words it — scan from
the cursor position itself, final range `[cursor - count, cursor - 1]` —
disagrees with the code's phase 1 on the scenario-B record: the claimed
pass counts the daughter already sitting at the cursor and leaves type code
11 at slot 1, while the code's pass skips the cursor slot and swaps that
daughter away, leaving type code 13 at slot 1. -/
theorem specPhase1_mismatch :
    specCompactifyPhase1 phase1Demo ≠ compactifyPhase1 phase1Demo ∧
    (pAt (specCompactifyPhase1 phase1Demo) 1).pdg = 11 ∧
    (pAt (compactifyPhase1 phase1Demo) 1).pdg = 13 := by decide

/-- Claim C10: `Copy` clones the summary with
`new Interaction(*record.fInteraction)`, dereferencing the source's summary
pointer unconditionally, so the operation is defined exactly for source
records with an attached summary. -/
theorem copy_requires_attached_summary (dst src : GHepRecord) (fresh : Nat) :
    (copyGHepRecord dst src fresh).isSome = src.fInteraction.isSome := by
  cases h : src.fInteraction with
  | none => simp [copyGHepRecord, h]
  | some s => simp [copyGHepRecord, h]

/-- Claim C7: `Copy` resets the destination (the result does not depend on
it), deep-copies every entry, copies the three flags, and attaches a
summary that is a fresh clone: equal payload, distinct reference. -/
theorem copy_roundtrip (dst dst' src : GHepRecord) (fresh a : Nat)
    (ia : Interaction) (hsrc : src.fInteraction = some (a, ia))
    (hfresh : fresh ≠ a) :
    ∃ c, copyGHepRecord dst src fresh = some c ∧
      copyGHepRecord dst' src fresh = copyGHepRecord dst src fresh ∧
      c.particles = src.particles ∧
      c.fIsPauliBlocked = src.fIsPauliBlocked ∧
      c.fIsBelowThrNRF = src.fIsBelowThrNRF ∧
      c.fGenericErrFlag = src.fGenericErrFlag ∧
      c.fInteraction = some (fresh, ia) ∧
      (∀ b, src.fInteraction = some b → fresh ≠ b.1) := by
  refine ⟨{ particles := src.particles, fInteraction := some (fresh, ia),
            fIsPauliBlocked := src.fIsPauliBlocked,
            fIsBelowThrNRF := src.fIsBelowThrNRF,
            fGenericErrFlag := src.fGenericErrFlag },
    by simp [copyGHepRecord, hsrc], by simp [copyGHepRecord, hsrc], rfl, rfl,
    rfl, rfl, rfl, ?_⟩
  intro b hb
  rw [hsrc] at hb
  cases hb
  exact hfresh

/-- Witness for claim C7: the round-trip applied to the concrete source
`srcDemo` (summary at address 0, clone allocated at address 1). -/
theorem copy_roundtrip_witness :
    (srcDemo.fInteraction = some (0, { data := 42 }) ∧ (1 : Nat) ≠ 0) ∧
    ∃ c, copyGHepRecord demoRecord srcDemo 1 = some c ∧
      copyGHepRecord srcDemo srcDemo 1 = copyGHepRecord demoRecord srcDemo 1 ∧
      c.particles = srcDemo.particles ∧
      c.fIsPauliBlocked = srcDemo.fIsPauliBlocked ∧
      c.fIsBelowThrNRF = srcDemo.fIsBelowThrNRF ∧
      c.fGenericErrFlag = srcDemo.fGenericErrFlag ∧
      c.fInteraction = some (1, { data := 42 }) ∧
      (∀ b, srcDemo.fInteraction = some b → (1 : Nat) ≠ b.1) :=
  ⟨⟨rfl, by decide⟩,
   copy_roundtrip demoRecord srcDemo srcDemo 1 0 { data := 42 } rfl (by decide)⟩

/-- Claim C9: every not-found condition at the lookup interface yields a
sentinel result — `GetParticle` with an out-of-range position and
`GetInteraction` without an attached summary return `NULL` (`none`),
`FindParticle` with no matching entry returns `NULL`, and both
`ParticlePosition` overloads return `-1`.  The lookups are embedded as
total pure functions of the record, so no abort occurs and the record is
left unchanged by a failed lookup. -/
theorem lookups_return_sentinels (r : GHepRecord) :
    (∀ position : Int,
        position < 0 ∨ (r.particles.length : Int) ≤ position →
        getParticle r.particles position = none) ∧
    (∀ pdg status : Int, ∀ start : Nat,
        (∀ i, start ≤ i → i < r.particles.length →
            ¬((pAt r.particles i).status = status ∧ (pAt r.particles i).pdg = pdg)) →
        findParticle r.particles pdg status start = none ∧
        particlePosition r.particles pdg status start = -1) ∧
    (∀ q : GHepParticle, ∀ start : Nat,
        (∀ i, start ≤ i → i < r.particles.length → pAt r.particles i ≠ q) →
        particlePositionOfParticle r.particles q start = -1) ∧
    (r.fInteraction = none → getInteraction r = none) := by
  refine ⟨?_, ?_, ?_, ?_⟩
  · intro position h
    unfold getParticle
    rw [if_neg]
    rintro ⟨h1, h2⟩
    omega
  · intro pdg status start h
    have hf : (List.range' start (r.particles.length - start)).find?
        (fun i => (pAt r.particles i).status == status &&
          (pAt r.particles i).pdg == pdg) = none := by
      rw [List.find?_eq_none]
      intro x hx
      rw [List.mem_range'_1] at hx
      have hx2 : x < r.particles.length := by omega
      have hnx := h x hx.1 hx2
      simp only [Bool.and_eq_true, beq_iff_eq]
      tauto
    constructor
    · unfold findParticle
      rw [hf]
    · unfold particlePosition
      rw [hf]
  · intro q start h
    have hf : (List.range' start (r.particles.length - start)).find?
        (fun i => pAt r.particles i == q) = none := by
      rw [List.find?_eq_none]
      intro x hx
      rw [List.mem_range'_1] at hx
      have hx2 : x < r.particles.length := by omega
      simpa using h x hx.1 hx2
    unfold particlePositionOfParticle
    rw [hf]
  · intro h
    unfold getInteraction
    exact h

/-- Witness for claim C9: the sentinel results at the concrete one-entry
record `demoRecord` with no summary attached — position 7 is out of range,
nothing carries type code 99, and the summary is absent. -/
theorem lookups_return_sentinels_witness :
    getParticle demoRecord.particles 7 = none ∧
    findParticle demoRecord.particles 99 1 0 = none ∧
    particlePosition demoRecord.particles 99 1 0 = -1 ∧
    particlePositionOfParticle demoRecord.particles (mkP 99 (-1) 1) 0 = -1 ∧
    getInteraction demoRecord = none :=
  ⟨(lookups_return_sentinels demoRecord).1 7 (by decide),
   ((lookups_return_sentinels demoRecord).2.1 99 1 0 (fun i _ h2 => by
      rw [show demoRecord.particles.length = 1 from rfl] at h2
      have hi : i = 0 := by omega
      subst hi
      decide)).1,
   ((lookups_return_sentinels demoRecord).2.1 99 1 0 (fun i _ h2 => by
      rw [show demoRecord.particles.length = 1 from rfl] at h2
      have hi : i = 0 := by omega
      subst hi
      decide)).2,
   (lookups_return_sentinels demoRecord).2.2.1 (mkP 99 (-1) 1) 0 (fun i _ h2 => by
      rw [show demoRecord.particles.length = 1 from rfl] at h2
      have hi : i = 0 := by omega
      subst hi
      decide),
   (lookups_return_sentinels demoRecord).2.2.2 rfl⟩

/-- Dropping `m` elements of `List.range' s n` leaves `List.range' (s + m) (n - m)`. -/
theorem drop_of_range' (s n m : Nat) :
    (List.range' s n).drop m = List.range' (s + m) (n - m) := by
  induction m generalizing s n with
  | zero => simp
  | succ k ih =>
      cases n with
      | zero => simp
      | succ n' =>
          rw [List.range'_succ, List.drop_succ_cons, ih]
          congr 1
          · omega
          · omega

/-- Dropping `m` elements of `List.range n` leaves `List.range' m (n - m)`. -/
theorem drop_of_range (n m : Nat) :
    (List.range n).drop m = List.range' m (n - m) := by
  rw [List.range_eq_range', drop_of_range']
  simp

/-- The inner compaction scan advances the cursor exactly once per tallied
daughter: final cursor plus initial tally equals initial cursor plus final
tally. -/
theorem compactScanSwap_cursor (i : Int) (ks : List Nat)
    (st : List GHepParticle × Nat × Nat) :
    (compactScanSwap i ks st).2.1 + st.2.2 = st.2.1 + (compactScanSwap i ks st).2.2 := by
  induction ks generalizing st with
  | nil => rfl
  | cons k ks ih =>
      rcases st with ⟨l, start, ndau⟩
      unfold compactScanSwap
      by_cases h : ((pAt l k).firstMother == i) = true
      · rw [if_pos h]
        have hih := ih (swapParticles l start k, start + 1, ndau + 1)
        dsimp only at hih ⊢
        omega
      · rw [if_neg h]
        exact ih (l, start, ndau)

/-- One step of the code's phase-1 loop coincides with one step of the
amended description. -/
theorem compactifyItem_eq_amended (st : List GHepParticle × Nat) (i : Nat) :
    compactifyItem st i = amendedCompactifyItem st i := by
  rcases st with ⟨l, c⟩
  unfold compactifyItem amendedCompactifyItem
  dsimp only
  rw [drop_of_range]
  by_cases h : hasCompactDaughterList l (Int.ofNat i) = true
  · rw [if_pos h, if_pos h]
  · rw [if_neg h, if_neg h]
    have hc := compactScanSwap_cursor (Int.ofNat i)
      (List.range' (c + 1) (l.length - (c + 1))) (l, c, 0)
    dsimp only at hc
    set res := compactScanSwap (Int.ofNat i)
      (List.range' (c + 1) (l.length - (c + 1))) (l, c, 0) with hres
    by_cases hn : res.2.2 > 0
    · rw [if_pos hn, if_pos hn]
      have h1 : res.2.1 - res.2.2 = c := by omega
      have h2 : res.2.1 = c + res.2.2 := by omega
      rw [h1, ← h2]
    · rw [if_neg hn, if_neg hn]

/-- Claim C3 (amended): phase 1 of full compaction scans, for each failing
position `i`, forward from `cursor + 1` to the end of the sequence (the
cursor slot itself is never examined), swaps the slot at the cursor with
each found position whose `firstMother` is `i`, advancing the cursor per
swap, and afterwards sets entry `i`'s daughter range to
`[cursor - count, cursor]` when `count > 0` and to `(-1, -1)` otherwise. -/
theorem compactifyPhase1_eq_amended (l : List GHepParticle) :
    compactifyPhase1 l = amendedCompactifyPhase1 l := by
  unfold compactifyPhase1 amendedCompactifyPhase1
  rw [show compactifyItem = amendedCompactifyItem from
    funext fun st => funext fun i => compactifyItem_eq_amended st i]

/-- The newly appended entry is what sits at the last slot. -/
theorem pAt_append_last (r : List GHepParticle) (p : GHepParticle) :
    pAt (r ++ [p]) r.length = p := by
  unfold pAt
  rw [List.getD_append_right r [p] default r.length le_rfl]
  simp

/-- Claim C5: the incremental update after an append of `p` to `r` follows
exactly the claimed cases — no-op without a mother, `[pos, pos]` for a
first daughter, one-sided extension when adjacent on either side, full
compaction otherwise — and, consequently, scenario A (mothers `-1, 0, 0`)
ends with entry 0's daughter range `[1, 2]` and no compaction invoked. -/
theorem addParticle_incremental_cases (r : List GHepParticle) (p : GHepParticle)
    (h : p.firstMother = -1 ∨
      (0 ≤ p.firstMother ∧ p.firstMother < (r.length : Int) + 1)) :
    addParticle r p = specIncrementalUpdate r p ∧
    scenarioA0.2 = false ∧ scenarioA1.2 = false ∧ scenarioA2.2 = false ∧
    (pAt scenarioA2.1 0).firstDaughter = 1 ∧
    (pAt scenarioA2.1 0).lastDaughter = 2 := by
  refine ⟨?_, by decide, by decide, by decide, by decide, by decide⟩
  have hlen : (r ++ [p]).length = r.length + 1 := by simp
  have hpos : (r ++ [p]).length - 1 = r.length := by simp
  have hlast : pAt (r ++ [p]) r.length = p := pAt_append_last r p
  by_cases hm : p.firstMother = -1
  · simp [addParticle, updateDaughterLists, specIncrementalUpdate, hlen, hpos,
      hlast, hm]
  · rcases h with h | ⟨h0, hlt⟩
    · exact absurd h hm
    · have hget : getParticle (r ++ [p]) p.firstMother =
          some (pAt (r ++ [p]) p.firstMother.toNat) := by
        unfold getParticle
        rw [if_pos]
        refine ⟨h0, ?_⟩
        rw [hlen]
        push_cast
        omega
      simp [addParticle, updateDaughterLists, specIncrementalUpdate, hlen, hpos,
        hlast, hm, hget]

/-- Witness for claim C5: the theorem applied at the third append of
scenario A, where the new entry's mother position 0 is a valid slot. -/
theorem addParticle_incremental_cases_witness :
    ((mkP 12 0 kIStStableFinalState).firstMother = -1 ∨
      (0 ≤ (mkP 12 0 kIStStableFinalState).firstMother ∧
        (mkP 12 0 kIStStableFinalState).firstMother < (scenarioA1.1.length : Int) + 1)) ∧
    (addParticle scenarioA1.1 (mkP 12 0 kIStStableFinalState) =
        specIncrementalUpdate scenarioA1.1 (mkP 12 0 kIStStableFinalState) ∧
      scenarioA0.2 = false ∧ scenarioA1.2 = false ∧ scenarioA2.2 = false ∧
      (pAt scenarioA2.1 0).firstDaughter = 1 ∧
      (pAt scenarioA2.1 0).lastDaughter = 2) :=
  ⟨Or.inr (by decide),
   addParticle_incremental_cases scenarioA1.1 (mkP 12 0 kIStStableFinalState)
     (Or.inr (by decide))⟩

/-- Once the compactness accumulator is false it stays false. -/
theorem compactScan_false (p : Int) (ks : List Int) :
    compactScan p ks false = false := by
  induction ks generalizing p with
  | nil => rfl
  | cons c t ih =>
      unfold compactScan
      rw [Bool.false_and]
      exact ih c

/-- The compactness accumulator loop checks exactly the chain condition
that consecutive listed positions differ by at most 1. -/
theorem compactScan_chain (p : Int) (ks : List Int) :
    compactScan p ks true = true ↔
      List.Chain (fun a b => (a - b).natAbs ≤ 1) p ks := by
  induction ks generalizing p with
  | nil => simp [compactScan]
  | cons c t ih =>
      unfold compactScan
      by_cases h : (p - c).natAbs ≤ 1
      · simp [h, ih, List.chain_cons]
      · simp [h, compactScan_false, List.chain_cons]

/-- Ascending insertion grows the length by one. -/
theorem insertSorted_length (x : Int) (ks : List Int) :
    (insertSorted x ks).length = ks.length + 1 := by
  induction ks with
  | nil => rfl
  | cons y t ih =>
      unfold insertSorted
      by_cases h : x ≤ y
      · simp [h]
      · simp [h, ih]

/-- Sorting preserves the length. -/
theorem sortInts_length (ks : List Int) : (sortInts ks).length = ks.length := by
  induction ks with
  | nil => rfl
  | cons x t ih =>
      unfold sortInts
      rw [insertSorted_length, ih]
      simp

/-- Claim C8: the compactness check for a candidate mother position `m`
collects all positions whose `firstMother` equals `m`, reports compact when
there are fewer than two, and otherwise reports compact exactly when every
consecutive pair of the sorted collected positions differs by at most 1. -/
theorem hasCompactDaughterList_iff (l : List GHepParticle) (m : Int) :
    hasCompactDaughterList l m = true ↔
      ((collectDaughters l m).length < 2 ∨
        List.Chain' (fun a b => (a - b).natAbs ≤ 1)
          (sortInts (collectDaughters l m))) := by
  unfold hasCompactDaughterList
  by_cases h : (collectDaughters l m).length > 1
  · rw [if_pos h]
    have hlen : (sortInts (collectDaughters l m)).length =
        (collectDaughters l m).length := sortInts_length _
    cases hs : sortInts (collectDaughters l m) with
    | nil =>
        rw [hs] at hlen
        simp at hlen
        omega
    | cons hd tl =>
        have hstep : compactScan hd (hd :: tl) true = compactScan hd tl true := by
          simp only [compactScan, sub_self, Int.natAbs_zero]
          norm_num
        dsimp only
        rw [hstep, compactScan_chain]
        have hchain : List.Chain' (fun a b => (a - b).natAbs ≤ 1) (hd :: tl) ↔
            List.Chain (fun a b => (a - b).natAbs ≤ 1) hd tl := Iff.rfl
        constructor
        · intro hc
          exact Or.inr (hchain.mpr hc)
        · rintro (hlt | hch)
          · omega
          · exact hchain.mp hch
  · rw [if_neg h]
    constructor
    · intro _
      exact Or.inl (by omega)
    · intro _
      rfl

/-- Reading a slot of `l.set i x`: the written value inside bounds at `i`,
the old entry elsewhere. -/
theorem pAt_set (l : List GHepParticle) (i j : Nat) (x : GHepParticle) :
    pAt (l.set i x) j = if i = j ∧ i < l.length then x else pAt l j := by
  unfold pAt
  rw [List.getD_eq_getElem?_getD, List.getD_eq_getElem?_getD, List.getElem?_set]
  by_cases hij : i = j
  · subst hij
    by_cases hi : i < l.length
    · simp [hi]
    · have hnone : l[i]? = none := by
        rw [List.getElem?_eq_none_iff]
        omega
      simp [hi, hnone]
  · simp [hij]

/-- Reading a slot inside the sequence is plain indexing. -/
theorem pAt_eq_getElem (l : List GHepParticle) (i : Nat) (h : i < l.length) :
    pAt l i = l[i] := by
  unfold pAt
  rw [List.getD_eq_getElem?_getD, List.getElem?_eq_getElem h]
  rfl

/-- Overwriting both daughter fields twice keeps only the last write. -/
theorem withDau_withDau (p : GHepParticle) (a b a' b' : Int) :
    ({ { p with firstDaughter := a', lastDaughter := b' } with
        firstDaughter := a, lastDaughter := b } : GHepParticle) =
      { p with firstDaughter := a, lastDaughter := b } := rfl

/-- `setDaughtersAt` preserves the length. -/
theorem setDaughtersAt_length (l : List GHepParticle) (i : Nat) (d1 d2 : Int) :
    (setDaughtersAt l i d1 d2).length = l.length := by
  unfold setDaughtersAt
  exact List.length_set l i _

/-- One finalize step preserves the length. -/
theorem finalizeItem_length (l : List GHepParticle) (i : Nat) :
    (finalizeItem l i).length = l.length := by
  unfold finalizeItem
  exact setDaughtersAt_length l i _ _

/-- Reading a slot after one finalize step: the recomputed entry at `i`
(inside bounds), the old entry elsewhere. -/
theorem pAt_finalizeItem (l : List GHepParticle) (i j : Nat) :
    pAt (finalizeItem l i) j =
      if i = j ∧ i < l.length then
        { pAt l j with
            firstDaughter := (finScan l (Int.ofNat i) (List.range l.length) (-1, -1)).1,
            lastDaughter := (finScan l (Int.ofNat i) (List.range l.length) (-1, -1)).2 }
      else pAt l j := by
  unfold finalizeItem setDaughtersAt
  rw [pAt_set]
  by_cases h : i = j ∧ i < l.length
  · rcases h with ⟨hij, hi⟩
    subst hij
    simp [hi]
  · simp [h]

/-- One finalize step does not touch any `firstMother` field. -/
theorem finalizeItem_mother (l : List GHepParticle) (i j : Nat) :
    (pAt (finalizeItem l i) j).firstMother = (pAt l j).firstMother := by
  rw [pAt_finalizeItem]
  by_cases h : i = j ∧ i < l.length
  · rw [if_pos h]
  · rw [if_neg h]

/-- The min/max accumulation only depends on the scanned `firstMother`
fields, so it transports along a mother-preserving change of sequence. -/
theorem finScan_congr (l l' : List GHepParticle)
    (hm : ∀ j, (pAt l j).firstMother = (pAt l' j).firstMother)
    (i1 : Int) (ks : List Nat) (d : Int × Int) :
    finScan l i1 ks d = finScan l' i1 ks d := by
  induction ks generalizing d with
  | nil => rfl
  | cons k t ih =>
      unfold finScan
      rw [hm k]
      by_cases h : ((pAt l' k).firstMother == i1) = true
      · rw [if_pos h, if_pos h, ih]
      · rw [if_neg h, if_neg h, ih]

/-- The positions of `ks` whose entry's `firstMother` equals `i1`, as
`Int` values (what the derivation scan actually aggregates). -/
def motherMatches (l : List GHepParticle) (i1 : Int) (ks : List Nat) : List Int :=
  (ks.filter (fun k => (pAt l k).firstMother == i1)).map Int.ofNat

/-- Once both accumulators are non-negative, the derivation scan is a plain
min/max fold over the matching positions. -/
theorem finScan_nonneg (l : List GHepParticle) (i1 : Int) (ks : List Nat)
    (a b : Int) (ha : 0 ≤ a) (hb : 0 ≤ b) :
    finScan l i1 ks (a, b) =
      ((motherMatches l i1 ks).foldl min a, (motherMatches l i1 ks).foldl max b) := by
  induction ks generalizing a b with
  | nil => rfl
  | cons k t ih =>
      unfold finScan motherMatches
      by_cases h : ((pAt l k).firstMother == i1) = true
      · rw [if_pos h]
        have hna : ¬(a < 0) := by omega
        have hnb : ¬(b < 0) := by omega
        rw [if_neg hna, if_neg hnb]
        rw [ih (min a (Int.ofNat k)) (max b (Int.ofNat k))
          (le_min ha (Int.ofNat_nonneg _)) (le_trans hb (le_max_left b _))]
        simp [List.filter_cons, h, motherMatches]
      · rw [if_neg h]
        rw [ih a b ha hb]
        simp [List.filter_cons, h, motherMatches]

/-- Starting from the `(-1, -1)` sentinel, the derivation scan returns the
min/max fold of the matching positions, or `(-1, -1)` when there are
none. -/
theorem finScan_sentinel (l : List GHepParticle) (i1 : Int) (ks : List Nat) :
    finScan l i1 ks (-1, -1) =
      (match motherMatches l i1 ks with
        | [] => ((-1 : Int), (-1 : Int))
        | m :: t => (t.foldl min m, t.foldl max m)) := by
  induction ks with
  | nil => rfl
  | cons k t ih =>
      unfold finScan
      by_cases h : ((pAt l k).firstMother == i1) = true
      · rw [if_pos h]
        have h1 : ((-1 : Int) < 0) := by omega
        rw [if_pos h1, if_pos h1]
        rw [finScan_nonneg l i1 t (Int.ofNat k) (Int.ofNat k) (Int.ofNat_nonneg _)
          (Int.ofNat_nonneg _)]
        have hm : motherMatches l i1 (k :: t) = Int.ofNat k :: motherMatches l i1 t := by
          unfold motherMatches
          simp [List.filter_cons, h]
        rw [hm]
      · rw [if_neg h]
        rw [ih]
        have hm : motherMatches l i1 (k :: t) = motherMatches l i1 t := by
          unfold motherMatches
          simp [List.filter_cons, h]
        rw [hm]

/-- The sentinel-started derivation scan over the whole sequence computes
exactly the claimed min/max daughter bounds. -/
theorem finScan_eq_specBounds (l : List GHepParticle) (i : Nat) :
    finScan l (Int.ofNat i) (List.range l.length) (-1, -1) =
      specDaughterBounds l i := by
  rw [finScan_sentinel]
  unfold specDaughterBounds
  have hcd : collectDaughters l (Int.ofNat i) =
      motherMatches l (Int.ofNat i) (List.range l.length) := rfl
  rw [hcd]
  cases motherMatches l (Int.ofNat i) (List.range l.length) with
  | nil => rfl
  | cons m t => rfl

/-- Folding the finalize step over a list of positions: every processed
in-range slot carries the bounds recomputed from the original sequence's
`firstMother` fields, every other slot is untouched. -/
theorem finalize_foldl_spec (ks : List Nat) (l : List GHepParticle) :
    (ks.foldl finalizeItem l).length = l.length ∧
    ∀ j, pAt (ks.foldl finalizeItem l) j =
      if j ∈ ks ∧ j < l.length then
        { pAt l j with
            firstDaughter := (finScan l (Int.ofNat j) (List.range l.length) (-1, -1)).1,
            lastDaughter := (finScan l (Int.ofNat j) (List.range l.length) (-1, -1)).2 }
      else pAt l j := by
  induction ks generalizing l with
  | nil =>
      refine ⟨rfl, fun j => ?_⟩
      simp
  | cons k t ih =>
      rw [List.foldl_cons]
      obtain ⟨ihlen, ihAt⟩ := ih (finalizeItem l k)
      have hlen1 : (finalizeItem l k).length = l.length := finalizeItem_length l k
      have hm1 : ∀ j2, (pAt (finalizeItem l k) j2).firstMother =
          (pAt l j2).firstMother := finalizeItem_mother l k
      constructor
      · rw [ihlen, hlen1]
      · intro j
        rw [ihAt j, hlen1, finScan_congr (finalizeItem l k) l hm1,
          pAt_finalizeItem l k j]
        by_cases hjl : j < l.length
        · by_cases hkj : k = j ∧ k < l.length
          · rw [if_pos hkj]
            obtain ⟨hkjeq, hkl⟩ := hkj
            subst hkjeq
            by_cases hjt : k ∈ t
            · rw [if_pos ⟨hjt, hjl⟩, if_pos ⟨List.mem_cons_self k t, hjl⟩,
                withDau_withDau]
            · rw [if_neg (fun hc => hjt hc.1), if_pos ⟨List.mem_cons_self k t, hjl⟩]
          · rw [if_neg hkj]
            by_cases hjt : j ∈ t
            · rw [if_pos ⟨hjt, hjl⟩, if_pos ⟨List.mem_cons_of_mem k hjt, hjl⟩]
            · have h3 : ¬(j ∈ k :: t ∧ j < l.length) := by
                rintro ⟨hc, _⟩
                rcases List.mem_cons.mp hc with hh | hh
                · exact hkj ⟨hh.symm, hh ▸ hjl⟩
                · exact hjt hh
              rw [if_neg (fun hc => hjt hc.1), if_neg h3]
        · have h1 : ¬(j ∈ t ∧ j < l.length) := fun hc => hjl hc.2
          have h2 : ¬(k = j ∧ k < l.length) := fun hc => hjl (hc.1 ▸ hc.2)
          have h3 : ¬(j ∈ k :: t ∧ j < l.length) := fun hc => hjl hc.2
          rw [if_neg h2, if_neg h1, if_neg h3]

/-- Claim C6: after phase 1, the derivation pass recomputes every entry's
daughter range from scratch, overwriting whatever ranges were set before:
each position's bounds become the min/max positions among entries whose
`firstMother` equals it, or `(-1, -1)` when there are none. -/
theorem finalizeDaughterLists_eq_spec (l : List GHepParticle) :
    finalizeDaughterLists l = specFinalize l := by
  unfold finalizeDaughterLists specFinalize
  obtain ⟨hlen, hAt⟩ := finalize_foldl_spec (List.range l.length) l
  apply List.ext_getElem
  · rw [hlen]
    simp
  · intro n h1 h2
    have hn : n < l.length := by
      rw [hlen] at h1
      exact h1
    rw [← pAt_eq_getElem _ _ h1, hAt n,
      if_pos ⟨List.mem_range.mpr hn, hn⟩]
    rw [List.getElem_map, List.getElem_range, finScan_eq_specBounds]
